import Mathlib

/-!
Verification development for the dungeon-game repository.

The Rust sources are shallowly embedded as Lean definitions:
machine integers (`i32`, `usize`, `isize`) are modelled as `ℤ` / `ℕ`
(coordinates and sizes in this program stay far from the overflow
boundaries), `f64` arithmetic in the line tracer and path weights is
modelled as exact rational arithmetic (`ℚ`), and the third-party
crates (`pathfinding::astar`, `rand::Rng`, `grid::Grid`) are modelled
as explicit parameters: an abstract path oracle, an explicit stream of
natural numbers, and a function from coordinates to tiles.
-/

/-! ## src/visibility.rs : data types -/

/-- The light transmission properties of a cell in the world
(src/visibility.rs, `enum CellVisibility`). -/
inductive CellVisibility where
  | Transparent
  | Blocking
deriving DecidableEq

/-- How well-lit a cell is (src/visibility.rs, `enum Lighting`). -/
inductive Lighting where
  | Dark
  | Lit
deriving DecidableEq

/-! ## src/visibility.rs : the line tracer

`fn line(start, end)` normalizes to the quadrant `dx >= |dy|, dx >= 0`
by at most one coordinate swap and at most one x-negation, then steps
along the line with floating-point math.  The `f64` steps are modelled
by exact `ℚ` arithmetic; the Rust cast `as i32` (round toward zero) is
`fTrunc`. -/

/-- Rust `f64 as i32`: truncation toward zero, on `ℚ`. -/
def fTrunc (q : ℚ) : ℤ :=
  if 0 ≤ q then ⌊q⌋ else ⌈q⌉

/-- The base case of `fn line` (src/visibility.rs lines 63-88): the
quadrant `dx >= |dy|`, `dx >= 0`.  The destination is moved by half a
cell toward the start on each axis, the slope is `dy / dx`, and the
cell emitted at step `k` is `(start.0 + k, (start.1 + k*slope + 0.5) as i32)`;
`take_while (x < end.0)` keeps exactly the steps `k < end.0 - start.0`. -/
def lineBase (start stop : ℤ × ℤ) : List (ℤ × ℤ) :=
  let dx : ℚ := ((stop.1 - start.1 : ℤ) : ℚ) - 1/2
  let dy : ℚ :=
    if stop.2 - start.2 > 0 then ((stop.2 - start.2 : ℤ) : ℚ) - 1/2
    else if stop.2 - start.2 < 0 then ((stop.2 - start.2 : ℤ) : ℚ) + 1/2
    else ((stop.2 - start.2 : ℤ) : ℚ)
  let slope : ℚ := dy / dx
  (List.range (stop.1 - start.1).toNat).map fun k : ℕ =>
    ((start.1 + k : ℤ), fTrunc ((start.2 : ℚ) + (k : ℚ) * slope + 1/2))

/-- `fn line` (src/visibility.rs lines 49-89).  The recursion swaps
coordinates when `|dx| < |dy|` and negates x when `dx < 0`; it reaches
the base case after at most two recursive calls, so fuel 3 suffices
(`line` below always runs the fuel-sufficient instance). -/
def lineFuel : ℕ → ℤ × ℤ → ℤ × ℤ → List (ℤ × ℤ)
  | 0, _, _ => []
  | n + 1, start, stop =>
    if (stop.1 - start.1).natAbs < (stop.2 - start.2).natAbs then
      (lineFuel n (start.2, start.1) (stop.2, stop.1)).map fun p => (p.2, p.1)
    else if stop.1 - start.1 < 0 then
      (lineFuel n (-start.1, start.2) (-stop.1, stop.2)).map fun p => (-p.1, p.2)
    else
      lineBase start stop

/-- Constructs the cells in a straight line from `start` to `stop`,
including `start` but not `stop` (src/visibility.rs `fn line`). -/
def line (start stop : ℤ × ℤ) : List (ℤ × ℤ) :=
  lineFuel 3 start stop

/-- Squared Euclidean distance `dx*dx + dy*dy` as computed by
`visible` (src/visibility.rs lines 37-41). -/
def distSq (origin cell : ℤ × ℤ) : ℤ :=
  (cell.1 - origin.1) * (cell.1 - origin.1) + (cell.2 - origin.2) * (cell.2 - origin.2)

/-- `fn visible` (src/visibility.rs lines 30-45): whether a monster at
`origin` can see cell `cell`, with sight range `radius` (`none` for
unlimited), transparency map `cell_map` and lighting map `light_map`. -/
def visible (origin cell : ℤ × ℤ) (radius : Option ℤ)
    (cell_map : ℤ × ℤ → CellVisibility) (light_map : ℤ × ℤ → Lighting) : Bool :=
  ((radius.map fun r => decide (distSq origin cell < r * r)).getD true)
    && decide (light_map cell = Lighting.Lit)
    && (line origin cell).all fun tile => decide (cell_map tile = CellVisibility.Transparent)

/-! ## src/rooms.rs : room bounds, the near test, and generation -/

/-- The bounding box of a room (src/rooms.rs, `struct RoomBounds`). -/
structure RoomBounds where
  ul_corner : ℕ × ℕ
  size : ℕ × ℕ
deriving DecidableEq

/-- `ROOM_SIZE_LIMITS: Range<usize> = 4..8` (src/rooms.rs line 28). -/
def ROOM_SIZE_LIMITS : ℕ × ℕ := (4, 8)

/-- `ROOM_MIN_DISTANCE: usize = 4` (src/rooms.rs line 32). -/
def ROOM_MIN_DISTANCE : ℕ := 4

/-- `ROOM_MARGIN: usize = 2` (src/rooms.rs line 37). -/
def ROOM_MARGIN : ℕ := 2

/-- `fn range_overlapping` (src/rooms.rs lines 117-123), with the
single self-swapping recursive call unrolled: the recursive call
`range_overlapping(b, a)` runs under `b.start <= a.start` and returns
`b.end > a.start`.  Ranges are half-open `(start, end)` pairs. -/
def range_overlapping (a b : ℕ × ℕ) : Bool :=
  if a.1 > b.1 then decide (b.2 > a.1) else decide (a.2 > b.1)

/-- `RoomBounds::intersects` (src/rooms.rs lines 116-132). -/
def RoomBounds.intersects (a b : RoomBounds) : Bool :=
  range_overlapping (a.ul_corner.1, a.ul_corner.1 + a.size.1)
      (b.ul_corner.1, b.ul_corner.1 + b.size.1)
    && range_overlapping (a.ul_corner.2, a.ul_corner.2 + a.size.2)
      (b.ul_corner.2, b.ul_corner.2 + b.size.2)

/-- `RoomBounds::near` (src/rooms.rs lines 136-145): grow both sizes
by `dist` (corners unchanged) and test intersection. -/
def RoomBounds.near (a b : RoomBounds) (dist : ℕ) : Bool :=
  RoomBounds.intersects ⟨a.ul_corner, (a.size.1 + dist, a.size.2 + dist)⟩
    ⟨b.ul_corner, (b.size.1 + dist, b.size.2 + dist)⟩

/-- Models `rng.gen_range(lo..hi)` consuming the random draw `n`: a
value in `[lo, hi)`.  Rust panics on an empty range; we return `lo`
there (the claims proved below do not depend on the draw). -/
def genRange (lo hi n : ℕ) : ℕ :=
  if lo < hi then lo + n % (hi - lo) else lo

/-- The loop of `RoomBounds::generate` (src/rooms.rs lines 149-171).
The random source is an explicit stream `rng` of draws, indexed by
`i`; each iteration consumes four draws (two for the size, two for
the corner) and accepts the candidate only if it is not near any
previously accepted room. -/
def RoomBounds.generateAux (region : ℕ × ℕ) (rng : ℕ → ℕ) :
    ℕ → ℕ → List RoomBounds → List RoomBounds
  | 0, _, v => v
  | n + 1, i, v =>
    let size := (genRange ROOM_SIZE_LIMITS.1 ROOM_SIZE_LIMITS.2 (rng i),
                 genRange ROOM_SIZE_LIMITS.1 ROOM_SIZE_LIMITS.2 (rng (i + 1)))
    let ul_corner := (genRange ROOM_MARGIN (region.1 - size.1 - ROOM_MARGIN) (rng (i + 2)),
                      genRange ROOM_MARGIN (region.2 - size.2 - ROOM_MARGIN) (rng (i + 3)))
    let new_room : RoomBounds := ⟨ul_corner, size⟩
    RoomBounds.generateAux region rng n (i + 4)
      (if v.all fun room => !(room.near new_room ROOM_MIN_DISTANCE) then v ++ [new_room] else v)

/-- `RoomBounds::generate` (src/rooms.rs lines 149-171). -/
def RoomBounds.generate (n_rooms : ℕ) (region_size : ℕ × ℕ) (rng : ℕ → ℕ) :
    List RoomBounds :=
  RoomBounds.generateAux region_size rng n_rooms 0 []

/-- `RoomBounds::center` (src/rooms.rs lines 174-179). -/
def RoomBounds.center (r : RoomBounds) : ℕ × ℕ :=
  (r.ul_corner.1 + r.size.1 / 2, r.ul_corner.2 + r.size.2 / 2)

/-- The separation predicate maintained by room generation. -/
def roomsApart (a b : RoomBounds) : Prop :=
  a.near b ROOM_MIN_DISTANCE = false ∧ b.near a ROOM_MIN_DISTANCE = false

/-! ## Tiles and grids

The repository holds two snapshots of `enum DungeonTile`
(src/game.rs: Floor, Wall, Hallway; src/level.rs: Floor, Wall,
Upstair, Downstair); src/rooms.rs uses all five variants, so the
embedding takes their union, which is also the tile set of the spec's
data model. -/

/-- The smallest measurable independent location in the dungeon
(src/level.rs and src/game.rs, `enum DungeonTile`). -/
inductive DungeonTile where
  | Floor
  | Wall
  | Hallway
  | Upstair
  | Downstair
deriving DecidableEq

/-- Whether this tile is considered a floor tile for the purposes of
rendering walls (src/level.rs lines 64-72, `DungeonTile::is_floor`). -/
def DungeonTile.is_floor : DungeonTile → Bool
  | DungeonTile.Wall => false
  | _ => true

/-- Whether this tile can be traveled through by normal creatures
(src/level.rs lines 74-79, `DungeonTile::is_navigable`). -/
def DungeonTile.is_navigable (t : DungeonTile) : Bool :=
  t.is_floor

/-- A `grid::Grid<DungeonTile>` (external crate), modelled as its
dimensions plus a total function from `(x, y)` coordinates to tiles;
`tiles (x, y)` stands for the Rust `grid[y][x]`. -/
structure GridT where
  cols : ℕ
  rows : ℕ
  tiles : ℕ × ℕ → DungeonTile

/-- Writing one cell of a grid: `grid[c.2][c.1] = t`. -/
def setTile (g : GridT) (c : ℕ × ℕ) (t : DungeonTile) : GridT :=
  { g with tiles := fun c' => if c' = c then t else g.tiles c' }

/-! ## src/rooms.rs : hallway carving

`add_hallways` (src/rooms.rs lines 183-250) routes between
consecutive room centers with `pathfinding::directed::astar::astar`
over randomized stone weights.  The external `astar` call together
with its weights is modelled as an abstract path oracle that may
inspect the current grid; the frame property proved below holds for
every oracle, hence for the real A* search. -/

/-- The write-back loop of `add_hallways` (src/rooms.rs lines
244-248): each path cell that is currently `Wall` becomes `Hallway`. -/
def carve (g : GridT) (path : List (ℕ × ℕ)) : GridT :=
  path.foldl
    (fun g' c => if g'.tiles c = DungeonTile.Wall then setTile g' c DungeonTile.Hallway else g')
    g

/-- `rooms.windows(2)` (src/rooms.rs line 194): consecutive pairs. -/
def windowPairs : List α → List (α × α)
  | a :: b :: rest => (a, b) :: windowPairs (b :: rest)
  | _ => []

/-- The loop of `add_hallways` over consecutive room-center pairs:
ask the oracle for a path, carve it, continue on the carved grid.
Returns the final grid together with the list of returned paths. -/
def add_hallwaysAux (oracle : GridT → ℕ × ℕ → ℕ × ℕ → List (ℕ × ℕ)) :
    GridT → List ((ℕ × ℕ) × (ℕ × ℕ)) → GridT × List (List (ℕ × ℕ))
  | g, [] => (g, [])
  | g, (a, b) :: rest =>
    let path := oracle g a b
    let res := add_hallwaysAux oracle (carve g path) rest
    (res.1, path :: res.2)

/-- `add_hallways` (src/rooms.rs lines 183-250), with the A* search
abstracted into `oracle`.  The Rust function mutates the grid in
place; here the carved grid and the astar paths are returned. -/
def add_hallways (g : GridT) (rooms : List RoomBounds)
    (oracle : GridT → ℕ × ℕ → ℕ × ℕ → List (ℕ × ℕ)) : GridT × List (List (ℕ × ℕ)) :=
  add_hallwaysAux oracle g (windowPairs (rooms.map RoomBounds.center))

/-! ## src/rooms.rs : the A* heuristic (lines 219-239)

The heuristic and the cost model are over `f64`; they are modelled
with exact `ℚ` values. -/

/-- `ROOM_WEIGHT: f64 = 0.2` (src/rooms.rs line 44). -/
def ROOM_WEIGHT : ℚ := 1/5

/-- `HALLWAY_RANDOMNESS: f64 = 0.6` (src/rooms.rs line 47). -/
def HALLWAY_RANDOMNESS : ℚ := 3/5

/-- `min_node_cost` (src/rooms.rs line 229). -/
def minNodeCost : ℚ := min (1 - HALLWAY_RANDOMNESS) ROOM_WEIGHT

/-- The A* heuristic of `add_hallways` (src/rooms.rs lines 234-238):
Manhattan distance to the target times the minimum node cost. -/
def heuristic (node target : ℤ × ℤ) : ℚ :=
  (((node.1 - target.1).natAbs + (node.2 - target.2).natAbs : ℕ) : ℚ) * minNodeCost

/-- One 4-directional step (src/rooms.rs line 196, `neighbors`). -/
def adjacentStep (a b : ℤ × ℤ) : Prop :=
  (b.1 - a.1, b.2 - a.2) ∈ [((-1 : ℤ), (0 : ℤ)), (1, 0), (0, -1), (0, 1)]

instance (a b : ℤ × ℤ) : Decidable (adjacentStep a b) := by
  unfold adjacentStep
  infer_instance

/-- A path in the search graph from `node` to `target`: a list of
(next cell, edge cost into it) steps, each step 4-directional. -/
def IsPath (node target : ℤ × ℤ) : List ((ℤ × ℤ) × ℚ) → Prop
  | [] => node = target
  | (c, _) :: rest => adjacentStep node c ∧ IsPath c target rest

/-- The edge-cost constraint of the search graph (src/rooms.rs lines
205-217): a stone weight drawn from `[1 - HALLWAY_RANDOMNESS,
1 + HALLWAY_RANDOMNESS)`, or the constant `ROOM_WEIGHT`. -/
def edgeCostOk (w : ℚ) : Prop :=
  (1 - HALLWAY_RANDOMNESS ≤ w ∧ w < 1 + HALLWAY_RANDOMNESS) ∨ w = ROOM_WEIGHT

/-! ## src/rooms.rs : stair placement (lines 253-288) -/

/-- `fn empty_square` (src/rooms.rs lines 280-288): repeatedly sample
a uniformly random cell until one holding `Floor` is found, returning
the cell and the next unread stream position.  The unbounded Rust
`loop` is given explicit fuel; `none` means the loop has not
terminated within the fuel. -/
def empty_square : ℕ → GridT → (ℕ → ℕ) → ℕ → Option ((ℕ × ℕ) × ℕ)
  | 0, _, _, _ => none
  | fuel + 1, g, rng, i =>
    let x := genRange 0 g.cols (rng i)
    let y := genRange 0 g.rows (rng (i + 1))
    if g.tiles (x, y) = DungeonTile.Floor then some ((x, y), i + 2)
    else empty_square fuel g rng (i + 2)

/-- One placement loop of `add_stairs` (src/rooms.rs lines 264-274):
place `n` stairs of kind `t`, each on a freshly sampled `Floor` cell,
recording the chosen coordinates in order. -/
def placeLoop (t : DungeonTile) (fuel : ℕ) :
    ℕ → GridT → (ℕ → ℕ) → ℕ → Option (GridT × List (ℕ × ℕ) × ℕ)
  | 0, g, _, i => some (g, [], i)
  | n + 1, g, rng, i =>
    match empty_square fuel g rng i with
    | none => none
    | some (c, i') =>
      match placeLoop t fuel n (setTile g c t) rng i' with
      | none => none
      | some (g', coords, i'') => some (g', c :: coords, i'')

/-- `fn add_stairs` (src/rooms.rs lines 253-277): place the upstairs,
then the downstairs, returning the final grid and both coordinate
lists. -/
def add_stairs (fuel n_upstairs n_downstairs : ℕ) (g : GridT) (rng : ℕ → ℕ) (i : ℕ) :
    Option (GridT × List (ℕ × ℕ) × List (ℕ × ℕ)) :=
  match placeLoop DungeonTile.Upstair fuel n_upstairs g rng i with
  | none => none
  | some (g1, upstairs, i') =>
    match placeLoop DungeonTile.Downstair fuel n_downstairs g1 rng i' with
    | none => none
    | some (g2, downstairs, _) => some (g2, upstairs, downstairs)

/-! ## src/level.rs : the dungeon level -/

/-- `LEVEL_SIZE: (usize, usize) = (80, 24)` (src/level.rs line 15). -/
def LEVEL_SIZE : ℕ × ℕ := (80, 24)

/-- The tile array of a `DungeonLevel` (src/level.rs line 21),
modelled as a total function; `tiles (x, y)` stands for the Rust
`self.tiles[y][x]` (out-of-bounds access panics in Rust and is out of
scope here: the claims only quantify over in-bounds cells). -/
def LevelTiles : Type := ℤ × ℤ → DungeonTile

/-- In-bounds test used by `render_tile` (src/level.rs lines 168-171):
`(0..LEVEL_SIZE.0).contains(x) && (0..LEVEL_SIZE.1).contains(y)`. -/
def inLevelBounds (p : ℤ × ℤ) : Prop :=
  0 ≤ p.1 ∧ p.1 < (LEVEL_SIZE.1 : ℤ) ∧ 0 ≤ p.2 ∧ p.2 < (LEVEL_SIZE.2 : ℤ)

instance (p : ℤ × ℤ) : Decidable (inLevelBounds p) := by
  unfold inLevelBounds
  infer_instance

/-- The `has_floor` closure of `render_tile` (src/level.rs lines
164-173): whether any in-bounds neighbor at one of the given deltas is
floor-classified. -/
def hasFloorAt (tiles : LevelTiles) (x y : ℕ) (deltas : List (ℤ × ℤ)) : Bool :=
  ((deltas.map fun d => ((x : ℤ) + d.1, (y : ℤ) + d.2)).filter
      fun p => decide (inLevelBounds p)).any
    fun p => (tiles p).is_floor

/-- `DungeonLevel::render_tile` (src/level.rs lines 146-188).
src/level.rs predates the `Hallway` variant; its glyph `'#'` is the
one given by the other snapshot (src/game.rs line 98). -/
def render_tile (tiles : LevelTiles) (x y : ℕ) : Char :=
  match tiles (x, y) with
  | DungeonTile.Floor => '.'
  | DungeonTile.Wall =>
    if hasFloorAt tiles x y [(0, -1), (0, 1)] then '-'
    else if hasFloorAt tiles x y [(-1, 0), (1, 0)] then '|'
    else if hasFloorAt tiles x y [(-1, -1), (-1, 1), (1, -1), (1, 1)] then '+'
    else ' '
  | DungeonTile.Hallway => '#'
  | DungeonTile.Upstair => '<'
  | DungeonTile.Downstair => '>'

/-- `DungeonLevel::can_see` (src/level.rs lines 198-213): `visible`
with radius 10, transparency from navigability, all cells lit. -/
def can_see (tiles : LevelTiles) (fromCell toCell : ℤ × ℤ) : Bool :=
  visible fromCell toCell (some 10)
    (fun c =>
      if (tiles c).is_navigable then CellVisibility.Transparent else CellVisibility.Blocking)
    (fun _ => Lighting.Lit)

/-- Modelled from the spec: the per-turn discovery update
(`update_discovery`, spec sections 4.5 and 6) is not present under
src/ — src/player.rs only reads `known_cells` and src/components.rs
only declares it.  Per the spec: for every grid cell, if the observer
can now see the cell, its entry is set true; already-true entries are
never cleared. -/
def update_discovery (known : ℤ × ℤ → Bool) (observer_pos : ℤ × ℤ)
    (tiles : LevelTiles) : ℤ × ℤ → Bool :=
  fun cell => known cell || can_see tiles observer_pos cell

/-! ## Claim-level definitions for counterexamples and witnesses -/

/-- Modelled from the spec: the reading of the near test claimed in
the spec ("inflate both rectangles by the distance threshold on all
sides, then test axis-aligned rectangle intersection").  Inflating
`a` on all sides gives the X range `[a.x - dist, a.x + a.w + dist)`
(in `ℤ`, since the corner moves up/left), similarly for `b` and for Y;
both inflated ranges must overlap. -/
def nearAllSidesSpec (a b : RoomBounds) (dist : ℕ) : Prop :=
  ((a.ul_corner.1 : ℤ) - dist < (b.ul_corner.1 : ℤ) + b.size.1 + dist ∧
    (b.ul_corner.1 : ℤ) - dist < (a.ul_corner.1 : ℤ) + a.size.1 + dist) ∧
  ((a.ul_corner.2 : ℤ) - dist < (b.ul_corner.2 : ℤ) + b.size.2 + dist ∧
    (b.ul_corner.2 : ℤ) - dist < (a.ul_corner.2 : ℤ) + a.size.2 + dist)

/-- A concrete 2-by-2 all-floor grid. -/
def gridEx : GridT := ⟨2, 2, fun _ => DungeonTile.Floor⟩

/-- A concrete random stream. -/
def rngEx : ℕ → ℕ := fun i => i / 2

/-- A concrete level: floor at (1, 0), walls elsewhere. -/
def tilesEx : LevelTiles :=
  fun p => if p = ((1 : ℤ), (0 : ℤ)) then DungeonTile.Floor else DungeonTile.Wall

/-! ## Lemmas -/

/-! ### Line tracer lemmas -/

/-- Every cell emitted by the base-quadrant tracer has first
coordinate strictly left of the destination column. -/
lemma lineBase_mem_fst_lt {p : ℤ × ℤ} {start stop : ℤ × ℤ}
    (h : p ∈ lineBase start stop) : p.1 < stop.1 := by
  simp only [lineBase, List.mem_map, List.mem_range] at h
  obtain ⟨k, hk, rfl⟩ := h
  show start.1 + (k : ℤ) < stop.1
  omega

/-- Membership in a coordinate-swapped mapped list. -/
lemma mem_map_swap {l : List (ℤ × ℤ)} {q : ℤ × ℤ} :
    q ∈ l.map (fun p => (p.2, p.1)) ↔ (q.2, q.1) ∈ l := by
  constructor
  · intro h
    rw [List.mem_map] at h
    obtain ⟨⟨a1, a2⟩, ha, he⟩ := h
    subst he
    simpa using ha
  · intro h
    rw [List.mem_map]
    exact ⟨(q.2, q.1), h, rfl⟩

/-- Membership in a first-coordinate-negated mapped list. -/
lemma mem_map_negFst {l : List (ℤ × ℤ)} {q : ℤ × ℤ} :
    q ∈ l.map (fun p => (-p.1, p.2)) ↔ (-q.1, q.2) ∈ l := by
  constructor
  · intro h
    rw [List.mem_map] at h
    obtain ⟨⟨a1, a2⟩, ha, he⟩ := h
    subst he
    simpa using ha
  · intro h
    rw [List.mem_map]
    refine ⟨(-q.1, q.2), h, ?_⟩
    simp

/-- The traced line never contains its endpoint, at any fuel. -/
lemma lineFuel_not_mem_stop : ∀ (n : ℕ) (start stop : ℤ × ℤ),
    stop ∉ lineFuel n start stop := by
  intro n
  induction n with
  | zero => intro start stop; simp [lineFuel]
  | succ n ih =>
    intro start stop
    simp only [lineFuel]
    split
    · intro h
      exact ih _ _ (mem_map_swap.mp h)
    · split
      · intro h
        exact ih _ _ (mem_map_negFst.mp h)
      · intro h
        exact absurd (lineBase_mem_fst_lt h) (lt_irrefl _)

/-- The traced line never contains its endpoint
(src/visibility.rs: the line "will include start, but not end"). -/
lemma line_not_mem_stop (start stop : ℤ × ℤ) : stop ∉ line start stop :=
  lineFuel_not_mem_stop 3 start stop

/-- The line from a cell to itself is empty. -/
lemma line_self (p : ℤ × ℤ) : line p p = [] := by
  simp [line, lineFuel, lineBase]

/-- Characterization of `visible` returning `true`: the radius test,
the lighting test, and transparency of every traced cell. -/
lemma visible_eq_true_iff (origin cell : ℤ × ℤ) (radius : Option ℤ)
    (cell_map : ℤ × ℤ → CellVisibility) (light_map : ℤ × ℤ → Lighting) :
    visible origin cell radius cell_map light_map = true ↔
      (∀ r, radius = some r → distSq origin cell < r * r) ∧
        light_map cell = Lighting.Lit ∧
        ∀ t ∈ line origin cell, cell_map t = CellVisibility.Transparent := by
  cases radius with
  | none => simp [visible]
  | some r => simp [visible, and_assoc]

/-! ### Room lemmas -/

lemma genRange_le (lo hi n : ℕ) : lo ≤ genRange lo hi n := by
  unfold genRange; split <;> omega

lemma genRange_lt {lo hi : ℕ} (h : lo < hi) (n : ℕ) : genRange lo hi n < hi := by
  unfold genRange
  rw [if_pos h]
  have : n % (hi - lo) < hi - lo := Nat.mod_lt _ (by omega)
  omega

/-- For nonempty half-open ranges, the unrolled overlap test is the
standard interval-intersection condition. -/
lemma range_overlapping_eq_true_iff {x y : ℕ × ℕ} (hx : x.1 < x.2) (hy : y.1 < y.2) :
    range_overlapping x y = true ↔ x.1 < y.2 ∧ y.1 < x.2 := by
  unfold range_overlapping
  split <;> simp <;> omega

/-- For rooms of positive size, `near` is the axis-aligned
intersection test on the grown rectangles. -/
lemma near_eq_true_iff {a b : RoomBounds} {dist : ℕ}
    (ha1 : 0 < a.size.1) (ha2 : 0 < a.size.2)
    (hb1 : 0 < b.size.1) (hb2 : 0 < b.size.2) :
    a.near b dist = true ↔
      (a.ul_corner.1 < b.ul_corner.1 + b.size.1 + dist ∧
        b.ul_corner.1 < a.ul_corner.1 + a.size.1 + dist) ∧
      (a.ul_corner.2 < b.ul_corner.2 + b.size.2 + dist ∧
        b.ul_corner.2 < a.ul_corner.2 + a.size.2 + dist) := by
  simp only [RoomBounds.near, RoomBounds.intersects, Bool.and_eq_true]
  rw [range_overlapping_eq_true_iff (by simp; omega) (by simp; omega),
    range_overlapping_eq_true_iff (by simp; omega) (by simp; omega)]
  simp only
  omega

/-- For rooms of positive size, `near` is symmetric. -/
lemma near_symm {a b : RoomBounds} {dist : ℕ}
    (ha1 : 0 < a.size.1) (ha2 : 0 < a.size.2)
    (hb1 : 0 < b.size.1) (hb2 : 0 < b.size.2) :
    a.near b dist = b.near a dist := by
  have hab := @near_eq_true_iff a b dist ha1 ha2 hb1 hb2
  have hba := @near_eq_true_iff b a dist hb1 hb2 ha1 ha2
  cases hx : a.near b dist <;> cases hy : b.near a dist
  · rfl
  · have h1 := hba.mp hy
    have h2 : a.near b dist = true := hab.mpr (by omega)
    rw [hx] at h2; cases h2
  · have h1 := hab.mp hx
    have h2 : b.near a dist = true := hba.mpr (by omega)
    rw [hy] at h2; cases h2
  · rfl

/-- Invariant of the generation loop: sizes stay positive, accepted
rooms stay pairwise apart, and at most one room is added per
iteration. -/
lemma generateAux_spec (region : ℕ × ℕ) (rng : ℕ → ℕ) :
    ∀ (n i : ℕ) (v : List RoomBounds),
      (∀ r ∈ v, 0 < r.size.1 ∧ 0 < r.size.2) →
      v.Pairwise roomsApart →
      (∀ r ∈ RoomBounds.generateAux region rng n i v, 0 < r.size.1 ∧ 0 < r.size.2) ∧
        (RoomBounds.generateAux region rng n i v).Pairwise roomsApart ∧
        (RoomBounds.generateAux region rng n i v).length ≤ v.length + n := by
  intro n
  induction n with
  | zero =>
    intro i v hpos hpw
    refine ⟨hpos, hpw, ?_⟩
    simp [RoomBounds.generateAux]
  | succ n ih =>
    intro i v hpos hpw
    simp only [RoomBounds.generateAux]
    set new_room : RoomBounds :=
      ⟨(genRange ROOM_MARGIN (region.1 - genRange ROOM_SIZE_LIMITS.1 ROOM_SIZE_LIMITS.2 (rng i) - ROOM_MARGIN) (rng (i + 2)),
        genRange ROOM_MARGIN (region.2 - genRange ROOM_SIZE_LIMITS.1 ROOM_SIZE_LIMITS.2 (rng (i + 1)) - ROOM_MARGIN) (rng (i + 3))),
       (genRange ROOM_SIZE_LIMITS.1 ROOM_SIZE_LIMITS.2 (rng i),
        genRange ROOM_SIZE_LIMITS.1 ROOM_SIZE_LIMITS.2 (rng (i + 1)))⟩ with hnew
    have hnew1 : 0 < new_room.size.1 := by
      have := genRange_le ROOM_SIZE_LIMITS.1 ROOM_SIZE_LIMITS.2 (rng i)
      simp only [hnew, ROOM_SIZE_LIMITS] at *
      omega
    have hnew2 : 0 < new_room.size.2 := by
      have := genRange_le ROOM_SIZE_LIMITS.1 ROOM_SIZE_LIMITS.2 (rng (i + 1))
      simp only [hnew, ROOM_SIZE_LIMITS] at *
      omega
    by_cases hacc : (v.all fun room => !(room.near new_room ROOM_MIN_DISTANCE)) = true
    · rw [if_pos hacc]
      have hfar : ∀ room ∈ v, room.near new_room ROOM_MIN_DISTANCE = false := by
        intro room hr
        have := List.all_eq_true.mp hacc room hr
        simpa using this
      have hpos' : ∀ r ∈ v ++ [new_room], 0 < r.size.1 ∧ 0 < r.size.2 := by
        intro r hr
        rcases List.mem_append.mp hr with h | h
        · exact hpos r h
        · simp only [List.mem_singleton] at h
          subst h
          exact ⟨hnew1, hnew2⟩
      have hpw' : (v ++ [new_room]).Pairwise roomsApart := by
        rw [List.pairwise_append]
        refine ⟨hpw, List.pairwise_singleton _ _, ?_⟩
        intro a ha b hb
        simp only [List.mem_singleton] at hb
        subst hb
        obtain ⟨hp1, hp2⟩ := hpos a ha
        refine ⟨hfar a ha, ?_⟩
        rw [near_symm hnew1 hnew2 hp1 hp2]
        exact hfar a ha
      obtain ⟨c1, c2, c3⟩ := ih (i + 4) (v ++ [new_room]) hpos' hpw'
      refine ⟨c1, c2, ?_⟩
      simp only [List.length_append, List.length_singleton] at c3
      omega
    · rw [if_neg hacc]
      obtain ⟨c1, c2, c3⟩ := ih (i + 4) v hpos hpw
      exact ⟨c1, c2, by omega⟩

/-! ### Hallway carving lemmas -/

/-- Pointwise effect of carving one path: a path cell currently `Wall`
becomes `Hallway`, everything else is untouched. -/
lemma carve_tiles (path : List (ℕ × ℕ)) : ∀ (g : GridT) (c : ℕ × ℕ),
    (carve g path).tiles c =
      if c ∈ path ∧ g.tiles c = DungeonTile.Wall then DungeonTile.Hallway
      else g.tiles c := by
  induction path with
  | nil => intro g c; simp [carve]
  | cons p rest ih =>
    intro g c
    have hstep : carve g (p :: rest) =
        carve (if g.tiles p = DungeonTile.Wall then setTile g p DungeonTile.Hallway else g)
          rest := rfl
    rw [hstep, ih]
    by_cases hw : g.tiles p = DungeonTile.Wall
    · rw [if_pos hw]
      by_cases hcp : c = p
      · subst hcp
        simp [setTile, hw]
      · have hset : (setTile g p DungeonTile.Hallway).tiles c = g.tiles c := by
          simp [setTile, hcp]
        rw [hset]
        simp [List.mem_cons, hcp]
    · rw [if_neg hw]
      by_cases hcp : c = p
      · subst hcp
        simp [List.mem_cons, hw]
      · simp [List.mem_cons, hcp]

/-- Pointwise effect of the whole hallway loop, in terms of the
returned paths. -/
lemma add_hallwaysAux_tiles (oracle : GridT → ℕ × ℕ → ℕ × ℕ → List (ℕ × ℕ)) :
    ∀ (ps : List ((ℕ × ℕ) × (ℕ × ℕ))) (g : GridT) (c : ℕ × ℕ),
      (add_hallwaysAux oracle g ps).1.tiles c =
        if (∃ path ∈ (add_hallwaysAux oracle g ps).2, c ∈ path) ∧
            g.tiles c = DungeonTile.Wall
        then DungeonTile.Hallway else g.tiles c := by
  intro ps
  induction ps with
  | nil => intro g c; simp [add_hallwaysAux]
  | cons ab rest ih =>
    intro g c
    obtain ⟨a, b⟩ := ab
    simp only [add_hallwaysAux]
    rw [ih, carve_tiles]
    by_cases hmem : c ∈ oracle g a b <;> by_cases hw : g.tiles c = DungeonTile.Wall
    · simp [hmem, hw, List.exists_mem_cons_iff]
    · simp [hmem, hw, List.exists_mem_cons_iff]
    · simp [hmem, hw, List.exists_mem_cons_iff]
    · simp [hmem, hw, List.exists_mem_cons_iff]

/-! ### Stair placement lemmas -/

/-- A successful `empty_square` always returns a `Floor` cell. -/
lemma empty_square_floor : ∀ (fuel : ℕ) (g : GridT) (rng : ℕ → ℕ) (i : ℕ)
    (c : ℕ × ℕ) (i' : ℕ), empty_square fuel g rng i = some (c, i') →
    g.tiles c = DungeonTile.Floor := by
  intro fuel
  induction fuel with
  | zero => intro g rng i c i' h; cases h
  | succ fuel ih =>
    intro g rng i c i' h
    simp only [empty_square] at h
    split at h
    · obtain ⟨rfl, rfl⟩ : (genRange 0 g.cols (rng i), genRange 0 g.rows (rng (i + 1))) = c ∧ i + 2 = i' := by
        cases h; exact ⟨rfl, rfl⟩
      assumption
    · exact ih g rng (i + 2) c i' h

/-- Invariants of one placement loop (for a stair tile `t ≠ Floor`):
the number of placed coordinates, the frame property, the state of the
placed cells, and their distinctness. -/
lemma placeLoop_spec (t : DungeonTile) (ht : t ≠ DungeonTile.Floor) (fuel : ℕ) :
    ∀ (n : ℕ) (g : GridT) (rng : ℕ → ℕ) (i : ℕ) (g' : GridT)
      (coords : List (ℕ × ℕ)) (i' : ℕ),
      placeLoop t fuel n g rng i = some (g', coords, i') →
      coords.length = n ∧
        (∀ c, g'.tiles c = g.tiles c ∨
          (g.tiles c = DungeonTile.Floor ∧ g'.tiles c = t)) ∧
        (∀ c ∈ coords, g.tiles c = DungeonTile.Floor ∧ g'.tiles c = t) ∧
        coords.Nodup := by
  intro n
  induction n with
  | zero =>
    intro g rng i g' coords i' h
    simp only [placeLoop] at h
    obtain ⟨rfl, rfl, rfl⟩ : g = g' ∧ [] = coords ∧ i = i' := by
      cases h; exact ⟨rfl, rfl, rfl⟩
    simp
  | succ n ih =>
    intro g rng i g' coords i' h
    simp only [placeLoop] at h
    split at h
    · cases h
    · rename_i c i1 he
      split at h
      · cases h
      · rename_i g2 coords2 i2 hp
        obtain ⟨hA, hB, hC⟩ : g2 = g' ∧ c :: coords2 = coords ∧ i2 = i' := by
          cases h; exact ⟨rfl, rfl, rfl⟩
        subst hA
        subst hB
        subst hC
        have hfloor : g.tiles c = DungeonTile.Floor := empty_square_floor fuel g rng i c i1 he
        obtain ⟨hlen, hframe, hcoords, hnodup⟩ := ih (setTile g c t) rng i1 g2 coords2 i2 hp
        have hsetc : (setTile g c t).tiles c = t := by simp [setTile]
        have hgc : g2.tiles c = t := by
          rcases hframe c with h1 | h1
          · rw [h1, hsetc]
          · exact h1.2
        refine ⟨by simp [hlen], ?_, ?_, ?_⟩
        · intro c'
          by_cases hcc : c' = c
          · subst hcc
            exact Or.inr ⟨hfloor, hgc⟩
          · have hset : (setTile g c t).tiles c' = g.tiles c' := by simp [setTile, hcc]
            rcases hframe c' with h1 | h1
            · exact Or.inl (by rw [h1, hset])
            · exact Or.inr ⟨by rw [← hset]; exact h1.1, h1.2⟩
        · intro x hx
          rcases List.mem_cons.mp hx with rfl | hx'
          · exact ⟨hfloor, hgc⟩
          · obtain ⟨hx1, hx2⟩ := hcoords x hx'
            have hxc : x ≠ c := by
              intro hxc
              subst hxc
              rw [hsetc] at hx1
              exact ht hx1
            refine ⟨?_, hx2⟩
            have : (setTile g c t).tiles x = g.tiles x := by simp [setTile, hxc]
            rw [← this]; exact hx1
        · refine List.nodup_cons.mpr ⟨?_, hnodup⟩
          intro hc
          obtain ⟨hc1, _⟩ := hcoords c hc
          rw [hsetc] at hc1
          exact ht hc1

/-! ### Heuristic lemmas -/

lemma minNodeCost_nonneg : 0 ≤ minNodeCost := by
  norm_num [minNodeCost, HALLWAY_RANDOMNESS, ROOM_WEIGHT]

/-- Every admissible edge cost is at least the minimum node cost. -/
lemma minNodeCost_le_edge {w : ℚ} (h : edgeCostOk w) : minNodeCost ≤ w := by
  rcases h with ⟨h1, _⟩ | rfl
  · have h2 : (1 : ℚ) - HALLWAY_RANDOMNESS = 2/5 := by norm_num [HALLWAY_RANDOMNESS]
    have h3 : minNodeCost = 1/5 := by
      norm_num [minNodeCost, HALLWAY_RANDOMNESS, ROOM_WEIGHT]
    rw [h3]; rw [h2] at h1; linarith
  · norm_num [minNodeCost, HALLWAY_RANDOMNESS, ROOM_WEIGHT]

/-- One 4-directional step lowers the heuristic by at most one node
cost. -/
lemma heuristic_step {node c target : ℤ × ℤ} (h : adjacentStep node c) :
    heuristic node target ≤ heuristic c target + minNodeCost := by
  have hm : (node.1 - target.1).natAbs + (node.2 - target.2).natAbs ≤
      ((c.1 - target.1).natAbs + (c.2 - target.2).natAbs) + 1 := by
    simp only [adjacentStep, List.mem_cons, List.mem_singleton, Prod.mk.injEq,
      List.not_mem_nil, or_false] at h
    rcases h with ⟨h1, h2⟩ | ⟨h1, h2⟩ | ⟨h1, h2⟩ | ⟨h1, h2⟩ <;> omega
  have hcast : (((node.1 - target.1).natAbs + (node.2 - target.2).natAbs : ℕ) : ℚ) ≤
      (((c.1 - target.1).natAbs + (c.2 - target.2).natAbs : ℕ) : ℚ) + 1 := by
    exact_mod_cast hm
  unfold heuristic
  calc (((node.1 - target.1).natAbs + (node.2 - target.2).natAbs : ℕ) : ℚ) * minNodeCost
      ≤ ((((c.1 - target.1).natAbs + (c.2 - target.2).natAbs : ℕ) : ℚ) + 1) * minNodeCost :=
        mul_le_mul_of_nonneg_right hcast minNodeCost_nonneg
    _ = (((c.1 - target.1).natAbs + (c.2 - target.2).natAbs : ℕ) : ℚ) * minNodeCost
          + minNodeCost := by ring

/-! ### Render classifier lemmas -/

/-- The `has_floor` closure as an existential over the delta list. -/
lemma hasFloorAt_eq_true_iff (tiles : LevelTiles) (x y : ℕ) (deltas : List (ℤ × ℤ)) :
    hasFloorAt tiles x y deltas = true ↔
      ∃ d ∈ deltas, inLevelBounds ((x : ℤ) + d.1, (y : ℤ) + d.2) ∧
        (tiles ((x : ℤ) + d.1, (y : ℤ) + d.2)).is_floor = true := by
  unfold hasFloorAt
  simp only [List.any_eq_true, List.mem_filter, List.mem_map]
  constructor
  · rintro ⟨p, ⟨⟨d, hd, rfl⟩, hb⟩, hf⟩
    exact ⟨d, hd, by simpa using hb, hf⟩
  · rintro ⟨d, hd, hb, hf⟩
    exact ⟨((x : ℤ) + d.1, (y : ℤ) + d.2), ⟨⟨d, hd, rfl⟩, by simpa using hb⟩, hf⟩

/-! ## Claims -/

/-- C1: `visible(origin, cell, radius, cell_map, light_map)` returns
true iff (1) radius is unset, or the squared Euclidean distance from
origin to cell is strictly less than radius squared, AND (2) the
cell's lighting is Lit, AND (3) every cell on the traced line
satisfies cell_map = Transparent; moreover the target itself is never
on the traced line, so its own transparency is irrelevant. -/
theorem visible_rule_C1 (origin cell : ℤ × ℤ) (radius : Option ℤ)
    (cell_map : ℤ × ℤ → CellVisibility) (light_map : ℤ × ℤ → Lighting) :
    (visible origin cell radius cell_map light_map = true ↔
      (∀ r, radius = some r → distSq origin cell < r * r) ∧
        light_map cell = Lighting.Lit ∧
        ∀ t ∈ line origin cell, cell_map t = CellVisibility.Transparent) ∧
      cell ∉ line origin cell :=
  ⟨visible_eq_true_iff origin cell radius cell_map light_map,
    line_not_mem_stop origin cell⟩

/-- Witness for C1 at a concrete instance: an in-range, lit, clear
line of sight. -/
theorem visible_rule_C1_witness :
    visible (0, 0) (3, 0) (some 4) (fun _ => CellVisibility.Transparent)
      (fun _ => Lighting.Lit) = true :=
  (visible_rule_C1 (0, 0) (3, 0) (some 4) _ _).1.mpr
    ⟨by intro r hr; cases hr; decide, rfl, fun t _ => rfl⟩

/-- C2 counterexample: with radius 0 a fully lit cell does not see
itself, because `0 < 0*0` fails; the claim includes r = 0. -/
theorem visible_self_C2_counterexample :
    visible ((0 : ℤ), (0 : ℤ)) (0, 0) (some 0) (fun _ => CellVisibility.Transparent)
      (fun _ => Lighting.Lit) = false := by
  decide

/-- C2 (amended): for every strictly positive radius, a cell whose
lighting is Lit sees itself, for every transparency map (the traced
line is empty). -/
theorem visible_self_C2 (p : ℤ × ℤ) (r : ℤ)
    (cell_map : ℤ × ℤ → CellVisibility) (light_map : ℤ × ℤ → Lighting)
    (hr : 0 < r) (hl : light_map p = Lighting.Lit) :
    visible p p (some r) cell_map light_map = true := by
  rw [visible_eq_true_iff]
  refine ⟨?_, hl, ?_⟩
  · intro rad hrad
    cases hrad
    have h0 : distSq p p = 0 := by simp [distSq]
    rw [h0]
    exact mul_pos hr hr
  · rw [line_self]
    intro t ht
    cases ht

/-- Witness for C2 (amended): radius 1, all-Blocking transparency. -/
theorem visible_self_C2_witness :
    visible ((0 : ℤ), (0 : ℤ)) (0, 0) (some 1) (fun _ => CellVisibility.Blocking)
      (fun _ => Lighting.Lit) = true :=
  visible_self_C2 (0, 0) 1 _ _ (by decide) rfl

/-- C3 counterexample: rooms 2 columns apart at distance 2.  The
code's `near` is false (it grows each size by `dist` only on the
lower-right), but inflating both rectangles by `dist` on all sides
makes them intersect. -/
theorem near_C3_counterexample :
    RoomBounds.near ⟨(0, 0), (1, 1)⟩ ⟨(3, 0), (1, 1)⟩ 2 = false ∧
      nearAllSidesSpec ⟨(0, 0), (1, 1)⟩ ⟨(3, 0), (1, 1)⟩ 2 := by
  constructor
  · decide
  · unfold nearAllSidesSpec
    decide

/-- C3 (amended): for rooms of positive size, `near(a, b, dist)` is
the axis-aligned intersection test of the rectangles obtained by
growing both sizes by `dist` with the corners fixed, i.e. the X
ranges `[a.x, a.x + a.w + dist)` and `[b.x, b.x + b.w + dist)`
overlap, and likewise for Y. -/
theorem near_C3 (a b : RoomBounds) (dist : ℕ)
    (ha1 : 0 < a.size.1) (ha2 : 0 < a.size.2)
    (hb1 : 0 < b.size.1) (hb2 : 0 < b.size.2) :
    a.near b dist = true ↔
      (a.ul_corner.1 < b.ul_corner.1 + b.size.1 + dist ∧
        b.ul_corner.1 < a.ul_corner.1 + a.size.1 + dist) ∧
      (a.ul_corner.2 < b.ul_corner.2 + b.size.2 + dist ∧
        b.ul_corner.2 < a.ul_corner.2 + a.size.2 + dist) :=
  near_eq_true_iff ha1 ha2 hb1 hb2

/-- Witness for C3 (amended) at a concrete overlapping pair. -/
theorem near_C3_witness :
    RoomBounds.near ⟨(0, 0), (1, 1)⟩ ⟨(2, 0), (1, 1)⟩ 2 = true :=
  (near_C3 ⟨(0, 0), (1, 1)⟩ ⟨(2, 0), (1, 1)⟩ 2
      (by decide) (by decide) (by decide) (by decide)).mpr (by decide)

/-- C4: in the sequence returned by `RoomBounds::generate`, every
pair of distinct accepted rooms fails the near test at
`ROOM_MIN_DISTANCE` (in both argument orders), and the sequence has
length at most `n_rooms`. -/
theorem generate_C4 (n_rooms : ℕ) (region_size : ℕ × ℕ) (rng : ℕ → ℕ) :
    (RoomBounds.generate n_rooms region_size rng).Pairwise roomsApart ∧
      (RoomBounds.generate n_rooms region_size rng).length ≤ n_rooms := by
  obtain ⟨_, h2, h3⟩ :=
    generateAux_spec region_size rng n_rooms 0 [] (by simp) List.Pairwise.nil
  exact ⟨h2, by simpa using h3⟩

/-- C5: `add_hallways` changes exactly the cells lying on some
returned path that currently hold `Wall` (those become `Hallway`);
every other cell, including path cells already holding Floor or
Hallway and all cells on no returned path, keeps its tile.  Stated
for every path oracle, hence in particular for the A* search. -/
theorem add_hallways_C5 (g : GridT) (rooms : List RoomBounds)
    (oracle : GridT → ℕ × ℕ → ℕ × ℕ → List (ℕ × ℕ)) (c : ℕ × ℕ) :
    (add_hallways g rooms oracle).1.tiles c =
      if (∃ path ∈ (add_hallways g rooms oracle).2, c ∈ path) ∧
          g.tiles c = DungeonTile.Wall
      then DungeonTile.Hallway else g.tiles c :=
  add_hallwaysAux_tiles oracle (windowPairs (rooms.map RoomBounds.center)) g c

/-- C6: the A* heuristic of `add_hallways` is admissible: for every
node and every 4-directional path to the target whose edge costs are
stone weights from `[1 - HALLWAY_RANDOMNESS, 1 + HALLWAY_RANDOMNESS)`
or the constant `ROOM_WEIGHT`, the heuristic value is at most the
total cost of the path. -/
theorem heuristic_admissible_C6 :
    ∀ (steps : List ((ℤ × ℤ) × ℚ)) (node target : ℤ × ℤ),
      IsPath node target steps → (∀ s ∈ steps, edgeCostOk s.2) →
      heuristic node target ≤ (steps.map Prod.snd).sum := by
  intro steps
  induction steps with
  | nil =>
    intro node target h _
    have h' : node = target := h
    subst h'
    simp [heuristic]
  | cons s rest ih =>
    intro node target h hc
    obtain ⟨c, w⟩ := s
    obtain ⟨hadj, hrest⟩ := h
    have h1 := @heuristic_step node c target hadj
    have h2 : minNodeCost ≤ w := minNodeCost_le_edge (hc (c, w) (List.mem_cons_self _ _))
    have h3 := ih c target hrest fun s hs => hc s (List.mem_cons_of_mem _ hs)
    simp only [List.map_cons, List.sum_cons]
    linarith

/-- Witness for C6 at a one-step path of cost 1. -/
theorem heuristic_admissible_C6_witness :
    heuristic (0, 0) (1, 0) ≤ (([(((1 : ℤ), (0 : ℤ)), (1 : ℚ))].map Prod.snd).sum) :=
  heuristic_admissible_C6 [((1, 0), 1)] (0, 0) (1, 0)
    ⟨by decide, rfl⟩
    (by
      intro s hs
      simp only [List.mem_singleton] at hs
      subst hs
      left
      constructor <;> norm_num [HALLWAY_RANDOMNESS])

/-- C7: assuming every `empty_square` loop terminates (the fuel
suffices), `add_stairs` converts only cells holding `Floor`, the
placed stairs are pairwise distinct cells, the upstairs list has
exactly `n_upstairs` coordinates each now holding `Upstair`, and the
downstairs list exactly `n_downstairs` each now holding `Downstair`. -/
theorem add_stairs_C7 (fuel n_upstairs n_downstairs : ℕ) (g : GridT) (rng : ℕ → ℕ) (i : ℕ)
    (g2 : GridT) (upstairs downstairs : List (ℕ × ℕ))
    (h : add_stairs fuel n_upstairs n_downstairs g rng i = some (g2, upstairs, downstairs)) :
    (∀ c, g2.tiles c ≠ g.tiles c → g.tiles c = DungeonTile.Floor) ∧
      (upstairs ++ downstairs).Nodup ∧
      (upstairs.length = n_upstairs ∧ ∀ c ∈ upstairs, g2.tiles c = DungeonTile.Upstair) ∧
      (downstairs.length = n_downstairs ∧
        ∀ c ∈ downstairs, g2.tiles c = DungeonTile.Downstair) := by
  unfold add_stairs at h
  split at h
  · cases h
  · rename_i g1 ups i1 hup
    split at h
    · cases h
    · rename_i gd downs i2 hdown
      cases h
      obtain ⟨hul, huf, huc, hun⟩ :=
        placeLoop_spec DungeonTile.Upstair (by decide) fuel n_upstairs g rng i g1
          upstairs i1 hup
      obtain ⟨hdl, hdf, hdc, hdn⟩ :=
        placeLoop_spec DungeonTile.Downstair (by decide) fuel n_downstairs g1 rng i1 g2
          downstairs i2 hdown
      refine ⟨?_, ?_, ⟨hul, ?_⟩, ⟨hdl, fun c hc => (hdc c hc).2⟩⟩
      · intro c hne
        by_cases h1 : g1.tiles c = g.tiles c
        · rcases hdf c with h2 | h2
          · exact absurd (h2.trans h1) hne
          · rw [← h1]; exact h2.1
        · rcases huf c with h2 | h2
          · exact absurd h2 h1
          · exact h2.1
      · rw [List.nodup_append]
        refine ⟨hun, hdn, ?_⟩
        intro a ha hb
        have h1 : g1.tiles a = DungeonTile.Upstair := (huc a ha).2
        have h2 : g1.tiles a = DungeonTile.Floor := (hdc a hb).1
        rw [h1] at h2
        cases h2
      · intro c hc
        have h1 : g1.tiles c = DungeonTile.Upstair := (huc c hc).2
        rcases hdf c with h2 | h2
        · rw [h2]; exact h1
        · rw [h1] at h2
          cases h2.1

/-- Witness for C7: one upstair and one downstair placed on a 2-by-2
all-floor grid with a concrete stream; the placement succeeds and
produces one upstair on a cell distinct from the downstair. -/
theorem add_stairs_C7_witness :
    ∃ r : GridT × List (ℕ × ℕ) × List (ℕ × ℕ),
      add_stairs 4 1 1 gridEx rngEx 0 = some r ∧
        r.2.1.length = 1 ∧ (r.2.1 ++ r.2.2).Nodup := by
  have h : (add_stairs 4 1 1 gridEx rngEx 0).isSome = true := by decide
  obtain ⟨r, hr⟩ := Option.isSome_iff_exists.mp h
  obtain ⟨gr, ups, downs⟩ := r
  have hs := add_stairs_C7 4 1 1 gridEx rngEx 0 gr ups downs hr
  exact ⟨(gr, ups, downs), hr, hs.2.2.1.1, hs.2.1⟩

/-- C8: for every in-bounds coordinate holding `Wall`, `render_tile`
returns, in priority order, the horizontal glyph when an in-bounds
north/south neighbor is floor-classified, else the vertical glyph
when an east/west neighbor is, else the corner glyph when a diagonal
neighbor is, else blank; and non-Wall tiles map to fixed glyphs
independent of their neighborhood. -/
theorem render_tile_C8 :
    (∀ (tiles : LevelTiles) (x y : ℕ), x < LEVEL_SIZE.1 → y < LEVEL_SIZE.2 →
      tiles ((x : ℤ), (y : ℤ)) = DungeonTile.Wall →
      render_tile tiles x y =
        if ∃ d ∈ ([(0, -1), (0, 1)] : List (ℤ × ℤ)),
            inLevelBounds ((x : ℤ) + d.1, (y : ℤ) + d.2) ∧
              (tiles ((x : ℤ) + d.1, (y : ℤ) + d.2)).is_floor = true then '-'
        else if ∃ d ∈ ([(-1, 0), (1, 0)] : List (ℤ × ℤ)),
            inLevelBounds ((x : ℤ) + d.1, (y : ℤ) + d.2) ∧
              (tiles ((x : ℤ) + d.1, (y : ℤ) + d.2)).is_floor = true then '|'
        else if ∃ d ∈ ([(-1, -1), (-1, 1), (1, -1), (1, 1)] : List (ℤ × ℤ)),
            inLevelBounds ((x : ℤ) + d.1, (y : ℤ) + d.2) ∧
              (tiles ((x : ℤ) + d.1, (y : ℤ) + d.2)).is_floor = true then '+'
        else ' ') ∧
    (∀ (tiles tilesB : LevelTiles) (x y xB yB : ℕ),
      tiles ((x : ℤ), (y : ℤ)) ≠ DungeonTile.Wall →
      tilesB ((xB : ℤ), (yB : ℤ)) = tiles ((x : ℤ), (y : ℤ)) →
      render_tile tilesB xB yB = render_tile tiles x y) := by
  constructor
  · intro tiles x y hx hy hw
    have e1 := hasFloorAt_eq_true_iff tiles x y [(0, -1), (0, 1)]
    have e2 := hasFloorAt_eq_true_iff tiles x y [(-1, 0), (1, 0)]
    have e3 := hasFloorAt_eq_true_iff tiles x y [(-1, -1), (-1, 1), (1, -1), (1, 1)]
    unfold render_tile
    rw [hw]
    by_cases h1 : hasFloorAt tiles x y [(0, -1), (0, 1)] = true
    · rw [if_pos h1, if_pos (e1.mp h1)]
    · rw [if_neg h1, if_neg fun he => h1 (e1.mpr he)]
      by_cases h2 : hasFloorAt tiles x y [(-1, 0), (1, 0)] = true
      · rw [if_pos h2, if_pos (e2.mp h2)]
      · rw [if_neg h2, if_neg fun he => h2 (e2.mpr he)]
        by_cases h3 : hasFloorAt tiles x y [(-1, -1), (-1, 1), (1, -1), (1, 1)] = true
        · rw [if_pos h3, if_pos (e3.mp h3)]
        · rw [if_neg h3, if_neg fun he => h3 (e3.mpr he)]
  · intro tiles tilesB x y xB yB hnw heq
    unfold render_tile
    rw [heq]
    cases htv : tiles ((x : ℤ), (y : ℤ)) <;> first | rfl | exact absurd htv hnw

/-- Witness for C8: a wall at (1, 1) with a floor cell to its north
renders as the horizontal wall glyph. -/
theorem render_tile_C8_witness : render_tile tilesEx 1 1 = '-' := by
  have h := render_tile_C8.1 tilesEx 1 1 (by decide) (by decide) (by decide)
  rw [h]
  decide

/-- C9: spec-modelled discovery is monotonic: once an entry of an
observer's known-cells grid is true, it stays true across every
subsequent `update_discovery` call, regardless of the observer
positions visited. -/
theorem update_discovery_C9 (tiles : LevelTiles) (moves : List (ℤ × ℤ))
    (known : ℤ × ℤ → Bool) (c : ℤ × ℤ) (h : known c = true) :
    (moves.foldl (fun k p => update_discovery k p tiles) known) c = true := by
  induction moves generalizing known with
  | nil => exact h
  | cons p rest ih =>
    simp only [List.foldl_cons]
    exact ih _ (by simp [update_discovery, h])

/-- Witness for C9 at a concrete grid, move list, and cell. -/
theorem update_discovery_C9_witness :
    (([((1 : ℤ), (1 : ℤ))].foldl
        (fun k p => update_discovery k p fun _ => DungeonTile.Floor)
        fun _ => true) (0, 0)) = true :=
  update_discovery_C9 _ _ _ _ rfl

/-- C10: `can_see(from, to)` is true iff the squared Euclidean
distance is strictly below 100 (the hard-coded radius 10) and every
cell on the traced line from `from` up to but excluding `to` is
navigable (non-Wall); lighting is constantly Lit and transparency
coincides with navigability. -/
theorem can_see_C10 (tiles : LevelTiles) (fromCell toCell : ℤ × ℤ) :
    can_see tiles fromCell toCell = true ↔
      distSq fromCell toCell < 100 ∧
        ∀ c ∈ line fromCell toCell, (tiles c).is_navigable = true := by
  unfold can_see
  rw [visible_eq_true_iff]
  constructor
  · rintro ⟨h1, _, h3⟩
    refine ⟨by simpa using h1 10 rfl, ?_⟩
    intro c hc
    have h4 := h3 c hc
    by_cases hn : (tiles c).is_navigable = true
    · exact hn
    · rw [if_neg hn] at h4
      cases h4
  · rintro ⟨h1, h2⟩
    refine ⟨?_, rfl, ?_⟩
    · intro r hr
      cases hr
      have h10 : (10 : ℤ) * 10 = 100 := by norm_num
      rw [h10]
      exact h1
    · intro t ht
      rw [if_pos (h2 t ht)]

/-- Witness for C10: an all-floor level, distance 9 < 100. -/
theorem can_see_C10_witness :
    can_see (fun _ => DungeonTile.Floor) (0, 0) (3, 0) = true :=
  (can_see_C10 (fun _ => DungeonTile.Floor) (0, 0) (3, 0)).mpr
    ⟨by decide, fun c _ => rfl⟩
